import Mathlib

/-!
Verification of the content-automation pipeline (Alert Ingestor and Post
Writer).  The two scripts `automation.js` and `write-posts.js` are shallowly
embedded: strings are lists of characters, the JavaScript regular-expression
operations are modelled by executable scanning functions with the engine's
leftmost-match / greedy / lazy semantics, the generative-text and row-store
collaborators are oracles passed in as parameters, and each batch run is a
fold over the selected items.
-/

/-! ## Character classes of the JavaScript regex dialect -/

/-- The character class `\s` of JavaScript regular expressions (also the set
removed by `String.prototype.trim`). -/
def isJsWhitespace (c : Char) : Bool :=
  c = ' ' || c = '\t' || c = '\n' || c = '\r' || c = '\x0b' || c = '\x0c' ||
  c = '\u00a0' || c = '\u1680' || ('\u2000' ≤ c && c ≤ '\u200a') ||
  c = '\u2028' || c = '\u2029' || c = '\u202f' || c = '\u205f' ||
  c = '\u3000' || c = '\ufeff'

/-- Line terminators, the characters not matched by `.` in a JavaScript
regular expression without the `s` flag. -/
def isLineTerminator (c : Char) : Bool :=
  c = '\n' || c = '\r' || c = '\u2028' || c = '\u2029'

/-- The character class `\w` of JavaScript regular expressions. -/
def isWordChar (c : Char) : Bool :=
  ('a' ≤ c && c ≤ 'z') || ('A' ≤ c && c ≤ 'Z') || ('0' ≤ c && c ≤ '9') || c = '_'

/-! ## Basic string helpers -/

/-- `String.prototype.trim`: whitespace removed from both ends. -/
def jsTrimList (l : List Char) : List Char :=
  ((l.dropWhile isJsWhitespace).reverse.dropWhile isJsWhitespace).reverse

/-- `String.prototype.trim` on packed strings. -/
def jsTrim (s : String) : String :=
  String.mk (jsTrimList s.data)

/-- `text.substring(0, n)` (code points stand in for UTF-16 code units). -/
def substrTake (n : Nat) (s : String) : String :=
  String.mk (s.data.take n)

/-! ## `text.replace(/\s+/g, '-')`: collapse whitespace runs to one hyphen -/

mutual

/-- Scanning state of `replace(/\s+/g, '-')`: outside a whitespace run. -/
def collapseWsChars : List Char → List Char
  | [] => []
  | c :: cs =>
    if isJsWhitespace c then '-' :: collapseWsSkip cs else c :: collapseWsChars cs

/-- Scanning state of `replace(/\s+/g, '-')`: inside a whitespace run whose
hyphen has already been emitted. -/
def collapseWsSkip : List Char → List Char
  | [] => []
  | c :: cs =>
    if isJsWhitespace c then collapseWsSkip cs else c :: collapseWsChars cs

end

/-! ## `content.split(/\s+/)`: pieces between whitespace runs, including the
empty pieces the JavaScript engine produces at the boundaries -/

mutual

/-- `split(/\s+/)` scanner; `acc` holds the reversed current piece. -/
def splitWsAux : List Char → List Char → List (List Char)
  | [], acc => [acc.reverse]
  | c :: cs, acc =>
    if isJsWhitespace c then acc.reverse :: splitWsAfter cs
    else splitWsAux cs (c :: acc)

/-- `split(/\s+/)` scanner just after a separator match: skip the rest of the
whitespace run, then start the next piece. -/
def splitWsAfter : List Char → List (List Char)
  | [] => [[]]
  | c :: cs =>
    if isJsWhitespace c then splitWsAfter cs else splitWsAux cs [c]

end

/-- `content.split(/\s+/)`. -/
def splitWs (l : List Char) : List (List Char) :=
  splitWsAux l []

/-! ## `content.replace(/\*\*/g, '')`: delete bold markers -/

def removeBold : List Char → List Char
  | '*' :: '*' :: cs => removeBold cs
  | c :: cs => c :: removeBold cs
  | [] => []

/-- `content.replace(/\n/g, ' ')`. -/
def newlinesToSpaces (l : List Char) : List Char :=
  l.map fun c => if c = '\n' then ' ' else c

/-! ## Leftmost-match scanners for the concrete regular expressions -/

/-- Case-insensitive prefix match against a lowercase ASCII pattern; on
success, the remaining (original-case) characters are returned. -/
def stripPrefixCI : List Char → List Char → Option (List Char)
  | [], l => some l
  | _ :: _, [] => none
  | p :: ps, c :: cs => if c.toLower = p then stripPrefixCI ps cs else none

/-- Backtracking result of `\s*(.+)` at a fixed position: the greedy
whitespace prefix shrinks until `.+` (one or more non-line-terminators) can
start; the capture of `.+` is returned. -/
def tryCapture (rest : List Char) : Option (List Char) :=
  match rest.dropWhile isJsWhitespace with
  | c :: cs => some ((c :: cs).takeWhile fun d => !(isLineTerminator d))
  | [] =>
    match rest.reverse.find? (fun c => !(isLineTerminator c)) with
    | some c => some [c]
    | none => none

/-- The literal part of `/Google Alert for:\s*(.+)/i`, lowered. -/
def alertSubjectPat : List Char := "google alert for:".data

/-- Match `/Google Alert for:\s*(.+)/i` at the head of the list, returning
the capture group. -/
def matchAlertAt (l : List Char) : Option (List Char) :=
  match stripPrefixCI alertSubjectPat l with
  | some rest => tryCapture rest
  | none => none

/-- Leftmost match of `/Google Alert for:\s*(.+)/i`. -/
def findAlertCapture : List Char → Option (List Char)
  | [] => none
  | c :: cs =>
    match matchAlertAt (c :: cs) with
    | some cap => some cap
    | none => findAlertCapture cs

/-- `email.subject.match(/Google Alert for:\s*(.+)/i)` followed by
`queryMatch ? queryMatch[1].trim() : ''` (automation.js lines 44-45). -/
def extractQuery (subject : String) : String :=
  match findAlertCapture subject.data with
  | some cap => jsTrim (String.mk cap)
  | none => ""

/-- Match `/https?:\/\/[^\s\n]+/i` at the head of the list, returning the
whole matched text. -/
def matchUrlAt (l : List Char) : Option (List Char) :=
  match stripPrefixCI "http".data l with
  | none => none
  | some r =>
    match stripPrefixCI "s://".data r with
    | some r2 =>
      let tok := r2.takeWhile fun c => !(isJsWhitespace c)
      if tok.isEmpty then none else some (l.take 8 ++ tok)
    | none =>
      match stripPrefixCI "://".data r with
      | some r2 =>
        let tok := r2.takeWhile fun c => !(isJsWhitespace c)
        if tok.isEmpty then none else some (l.take 7 ++ tok)
      | none => none

/-- Leftmost match of `/https?:\/\/[^\s\n]+/i`. -/
def findUrl : List Char → Option (List Char)
  | [] => none
  | c :: cs =>
    match matchUrlAt (c :: cs) with
    | some u => some u
    | none => findUrl cs

/-- Lazy `(.*?)` up to the first case-insensitive occurrence of `close`;
fails if a line terminator or the end of input comes first. -/
def lazyUntil (close : List Char) : List Char → Option (List Char)
  | [] => none
  | c :: cs =>
    match stripPrefixCI close (c :: cs) with
    | some _ => some []
    | none =>
      if isLineTerminator c then none
      else
        match lazyUntil close cs with
        | some cap => some (c :: cap)
        | none => none

/-- Match `/<tag[^>]*>(.*?)<\/tag>/i` at the head of the list, returning the
capture group. -/
def matchTagAt (openPat closePat : List Char) (l : List Char) : Option (List Char) :=
  match stripPrefixCI openPat l with
  | none => none
  | some r1 =>
    match r1.dropWhile (fun c => c != '>') with
    | [] => none
    | _ :: r3 => lazyUntil closePat r3

/-- Leftmost match of `/<tag[^>]*>(.*?)<\/tag>/i`. -/
def findTag (openPat closePat : List Char) : List Char → Option (List Char)
  | [] => none
  | c :: cs =>
    match matchTagAt openPat closePat (c :: cs) with
    | some inner => some inner
    | none => findTag openPat closePat cs

mutual

/-- `.replace(/<[^>]+>/g, '')` scanning state: outside a candidate tag. -/
def stripTags : List Char → List Char
  | [] => []
  | c :: cs => if c = '<' then stripTagsIn cs ['<'] else c :: stripTags cs

/-- `.replace(/<[^>]+>/g, '')` scanning state: after a `<`, buffering the
characters read so far (reversed) until a `>` decides the match. -/
def stripTagsIn : List Char → List Char → List Char
  | [], buf => buf.reverse
  | c :: cs, buf =>
    if c = '>' then
      if 2 ≤ buf.length then stripTags cs
      else buf.reverse ++ '>' :: stripTags cs
    else stripTagsIn cs (c :: buf)

end

/-- Length of the `#`-run at the head of the list. -/
def headingRun (l : List Char) : Nat :=
  (l.takeWhile fun c => c = '#').length

/-- Match `/#{1,6}\s/` at the head of the list, returning the characters
after the match.  With a run of more than six `#` the greedy quantifier
backtracks without success, so the position does not match. -/
def headingAt (l : List Char) : Option (List Char) :=
  if 1 ≤ headingRun l ∧ headingRun l ≤ 6 then
    match l.drop (headingRun l) with
    | c :: cs => if isJsWhitespace c then some cs else none
    | [] => none
  else none

theorem headingAt_length {l rest : List Char} (h : headingAt l = some rest) :
    rest.length < l.length := by
  unfold headingAt at h
  split at h
  · rename_i hr
    split at h
    · rename_i c cs hdrop
      split at h
      · cases h
        have hlen := congrArg List.length hdrop
        simp [List.length_drop] at hlen
        omega
      · cases h
    · cases h
  · cases h

/-- `content.replace(/#{1,6}\s/g, '')`: repeated leftmost removal. -/
def replaceHeadings : List Char → List Char
  | [] => []
  | c :: cs =>
    match h : headingAt (c :: cs) with
    | some rest => replaceHeadings rest
    | none => c :: replaceHeadings cs
termination_by l => l.length
decreasing_by
  · exact headingAt_length h
  · simp

/-! ## The shared slug character pipeline

`.toLowerCase().replace(/[^\w\s-]/g, '').replace(/\s+/g, '-')`, the common
part of the three slug helpers. -/

def slugChars (text : List Char) : List Char :=
  collapseWsChars
    ((text.map Char.toLower).filter fun c => isWordChar c || isJsWhitespace c || c = '-')

/-! ## Alert Ingestor (`automation.js`) -/

namespace Automation

/-- One inbox message, with its parsed header fields and the mailbox `Seen`
flag.  (`fetchOne`/`simpleParser` are collapsed into record fields.) -/
structure MailMsg where
  uid : Nat
  sender : String
  seen : Bool
  subject : String
  text : String
  html : String
  date : Option String
deriving Repr, DecidableEq

/-- The ephemeral alert record built by `parseAlert`. -/
structure Alert where
  query : String
  url : String
  title : String
  snippet : String
  date : Option String
deriving Repr, DecidableEq

/-- `parseAlert` (automation.js lines 40-62). -/
def parseAlert (email : MailMsg) : Alert :=
  let text := email.text
  let html := email.html
  let query := extractQuery email.subject
  let url :=
    match findUrl text.data with
    | some u => String.mk u
    | none =>
      match findUrl html.data with
      | some u => String.mk u
      | none => ""
  let title0 := query
  let snippet0 := substrTake 500 text
  let title :=
    if html ≠ "" then
      match findTag "<h3".data "</h3>".data html.data with
      | some inner => jsTrim (String.mk (stripTags inner))
      | none => title0
    else title0
  let snippet :=
    if html ≠ "" then
      match findTag "<p".data "</p>".data html.data with
      | some inner => jsTrim (String.mk (stripTags inner))
      | none => snippet0
    else snippet0
  { query := query, url := url, title := title, snippet := snippet, date := email.date }

/-- The JSON object requested from the text-completion collaborator by
`generateContentIdea`. -/
structure IdeaGen where
  suggested_title : String
  target_keywords : List String
  target_audience : String
  search_intent : String
  suggested_outline : String
  word_count_estimate : Option Nat
  seo_priority_score : Int
  topic : String
  urgency : String
deriving Repr, DecidableEq

/-- `generateSlug` (automation.js lines 82-84): truncation to 100. -/
def generateSlug (text : String) : String :=
  String.mk ((slugChars text.data).take 100)

/-- A row of the `content_ideas` table. -/
structure ContentIdeaRow where
  title : String
  slug : String
  source : String
  topic : String
  urgency : String
  alert_query : String
  alert_date : Option String
  original_url : String
  source_title : String
  source_snippet : String
  target_keywords : List String
  target_audience : String
  search_intent : String
  suggested_title : String
  suggested_outline : String
  word_count_estimate : Option Nat
  seo_priority_score : Int
  status : String
deriving Repr, DecidableEq

/-- The row built by `saveContentIdea` (automation.js lines 86-112);
`alert.date?.toISOString()` is modelled by the optional date itself. -/
def contentIdeaRow (alert : Alert) (idea : IdeaGen) : ContentIdeaRow :=
  { title := "Content Idea: " ++ alert.title
    slug := generateSlug idea.suggested_title
    source := "google_alerts"
    topic := idea.topic
    urgency := idea.urgency
    alert_query := alert.query
    alert_date := alert.date
    original_url := alert.url
    source_title := alert.title
    source_snippet := alert.snippet
    target_keywords := idea.target_keywords
    target_audience := idea.target_audience
    search_intent := idea.search_intent
    suggested_title := idea.suggested_title
    suggested_outline := idea.suggested_outline
    word_count_estimate := idea.word_count_estimate
    seo_priority_score := idea.seo_priority_score
    status := "pending" }

/-- The two fallible collaborators of the per-message loop:
`generateContentIdea` (completion call plus JSON parse) and the
`content_ideas` insert.  `none` from `insertIdea` means success. -/
structure IngestEnv where
  genIdea : Alert → Except String IdeaGen
  insertIdea : ContentIdeaRow → Option String

/-- Observable state of one ingestor run: the mailbox, the rows inserted by
this run, the three counters, and the console log. -/
structure IngestState where
  mbox : List MailMsg
  rows : List ContentIdeaRow
  processed : Nat
  skipped : Nat
  errors : Nat
  log : List String
deriving Repr, DecidableEq

def alertsSender : String := "googlealerts-noreply@google.com"

/-- `client.search({ from: ..., seen: false })` (automation.js lines 139-142). -/
def searchUnseen (mbox : List MailMsg) : List MailMsg :=
  mbox.filter fun m => m.sender == alertsSender && !m.seen

/-- `markAsRead` (automation.js lines 114-116): add the `\Seen` flag. -/
def markAsRead (mbox : List MailMsg) (uid : Nat) : List MailMsg :=
  mbox.map fun m => if m.uid == uid then { m with seen := true } else m

/-- One iteration of the message loop (automation.js lines 151-178). -/
def ingestStep (env : IngestEnv) (st : IngestState) (msg : MailMsg) : IngestState :=
  let alert := parseAlert msg
  if alert.query = "" then
    { st with
      skipped := st.skipped + 1
      mbox := markAsRead st.mbox msg.uid
      log := st.log ++ ["Skipped: not a Google Alert"] }
  else
    match env.genIdea alert with
    | .error e =>
      { st with
        errors := st.errors + 1
        mbox := markAsRead st.mbox msg.uid
        log := st.log ++ ["Processing: " ++ alert.query, "Error processing email: " ++ e] }
    | .ok idea =>
      let row := contentIdeaRow alert idea
      match env.insertIdea row with
      | some e =>
        { st with
          errors := st.errors + 1
          mbox := markAsRead st.mbox msg.uid
          log := st.log ++ ["Processing: " ++ alert.query,
                            "Supabase insert error: " ++ e,
                            "Error processing email: " ++ e] }
      | none =>
        { st with
          rows := st.rows ++ [row]
          processed := st.processed + 1
          mbox := markAsRead st.mbox msg.uid
          log := st.log ++ ["Processing: " ++ alert.query,
                            "Saved: " ++ idea.suggested_title] }

/-- `runAutomation` (automation.js lines 118-188): fold the message loop
over the unseen alert messages.  The final summary console line is not
modelled. -/
def runAutomation (env : IngestEnv) (mbox : List MailMsg) : IngestState :=
  (searchUnseen mbox).foldl (ingestStep env)
    { mbox := mbox
      rows := []
      processed := 0
      skipped := 0
      errors := 0
      log := ["Starting content automation..."] }

end Automation

/-! ## Post Writer (`write-posts.js`) -/

namespace WritePosts

def POSTS_PER_DAY : Nat := 3

/-- A row of the `content_ideas` table as the writer reads it. -/
structure Idea where
  id : Nat
  suggested_title : String
  topic : String
  target_keywords : List String
  target_audience : String
  search_intent : String
  suggested_outline : String
  word_count_estimate : Option Nat
  seo_priority_score : Int
  status : String
deriving Repr, DecidableEq

/-- `generateSlug` (write-posts.js lines 87-93): truncation to 80. -/
def generateSlug (title : String) : String :=
  String.mk ((slugChars title.data).take 80)

/-- `generateExcerpt` (write-posts.js lines 95-103). -/
def generateExcerpt (content : String) : String :=
  String.mk
    ((jsTrimList (newlinesToSpaces (removeBold (replaceHeadings content.data)))).take 160
      ++ "...".data)

/-- `calculateReadingTime` (write-posts.js lines 105-108):
`Math.ceil(words / 200)` as ceiling division. -/
def calculateReadingTime (content : String) : Nat :=
  ((splitWs content.data).length + 199) / 200

/-- `generateCategorySlug` (write-posts.js lines 110-113): no truncation;
an empty (falsy) category gives `null`. -/
def generateCategorySlug (category : String) : Option String :=
  if category = "" then none else some (String.mk (slugChars category.data))

/-- A row of the `blog_posts` table (`created_at`/`updated_at` timestamps
are not modelled). -/
structure BlogPost where
  title : String
  slug : String
  excerpt : String
  content : String
  meta_title : String
  meta_description : String
  keywords : List String
  category : String
  category_slug : Option String
  reading_time : Nat
  author_name : String
  status : String
  source_idea_id : Nat
deriving Repr, DecidableEq

/-- The row built by `saveBlogPost` (write-posts.js lines 115-142). -/
def blogPostRow (idea : Idea) (content : String) (metaDescription : String) : BlogPost :=
  { title := idea.suggested_title
    slug := generateSlug idea.suggested_title
    excerpt := generateExcerpt content
    content := content
    meta_title := idea.suggested_title
    meta_description := metaDescription
    keywords := idea.target_keywords
    category := idea.topic
    category_slug := generateCategorySlug idea.topic
    reading_time := calculateReadingTime content
    author_name := "Meet Your Clinic"
    status := "draft"
    source_idea_id := idea.id }

/-- The fallible collaborators of one writer run: the `content_ideas`
select (`selectError`), the two completion calls, the `blog_posts` insert
and the status update.  `none` from the store operations means success. -/
structure WriterEnv where
  selectError : Option String
  genPost : Idea → Except String String
  genMeta : String → String → Except String String
  insertPost : BlogPost → Option String
  updateStatus : Nat → Option String

/-- Observable state of one writer run: the `content_ideas` store, the
posts inserted by this run, the counters, the number of completion calls
made, and the console log. -/
structure WriterState where
  store : List Idea
  posts : List BlogPost
  written : Nat
  errors : Nat
  calls : Nat
  log : List String
deriving Repr, DecidableEq

/-- Stable descending insertion by `seo_priority_score`. -/
def insertDesc (x : Idea) : List Idea → List Idea
  | [] => [x]
  | y :: ys =>
    if y.seo_priority_score < x.seo_priority_score then x :: y :: ys
    else y :: insertDesc x ys

/-- `order('seo_priority_score', { ascending: false })` as a sort. -/
def sortDesc : List Idea → List Idea
  | [] => []
  | x :: xs => insertDesc x (sortDesc xs)

/-- `getPendingIdeas` (write-posts.js lines 18-32): filter on
`status = 'pending'`, order descending, limit 3; a select error is logged
and becomes the empty list. -/
def getPendingIdeas (env : WriterEnv) (db : List Idea) : List Idea × List String :=
  match env.selectError with
  | some e => ([], ["Error fetching ideas: " ++ e])
  | none => ((sortDesc (db.filter fun i => i.status == "pending")).take POSTS_PER_DAY, [])

/-- The store update of `markIdeaAsProcessed` (write-posts.js lines 144-153). -/
def markIdeaAsProcessed (db : List Idea) (ideaId : Nat) : List Idea :=
  db.map fun i => if i.id == ideaId then { i with status := "processed" } else i

/-- One iteration of the idea loop (write-posts.js lines 169-185).  The
first three steps throw into the catch; a failing status update
(`markIdeaAsProcessed`) only logs. -/
def writerStep (env : WriterEnv) (st : WriterState) (idea : Idea) : WriterState :=
  match env.genPost idea with
  | .error e =>
    { st with
      errors := st.errors + 1
      calls := st.calls + 1
      log := st.log ++ ["Writing: " ++ idea.suggested_title,
                        "Error processing idea " ++ toString idea.id ++ ": " ++ e] }
  | .ok content =>
    match env.genMeta idea.suggested_title (substrTake 500 content) with
    | .error e =>
      { st with
        errors := st.errors + 1
        calls := st.calls + 2
        log := st.log ++ ["Writing: " ++ idea.suggested_title,
                          "Error processing idea " ++ toString idea.id ++ ": " ++ e] }
    | .ok rawMeta =>
      let metaDescription := jsTrim rawMeta
      let post := blogPostRow idea content metaDescription
      match env.insertPost post with
      | some e =>
        { st with
          errors := st.errors + 1
          calls := st.calls + 2
          log := st.log ++ ["Writing: " ++ idea.suggested_title,
                            "Error saving post: " ++ e,
                            "Error processing idea " ++ toString idea.id ++ ": " ++ e] }
      | none =>
        match env.updateStatus idea.id with
        | some e =>
          { st with
            posts := st.posts ++ [post]
            written := st.written + 1
            calls := st.calls + 2
            log := st.log ++ ["Writing: " ++ idea.suggested_title,
                              "Error updating idea status: " ++ e,
                              "Saved draft: /blog/" ++ post.slug] }
        | none =>
          { st with
            posts := st.posts ++ [post]
            written := st.written + 1
            calls := st.calls + 2
            store := markIdeaAsProcessed st.store idea.id
            log := st.log ++ ["Writing: " ++ idea.suggested_title,
                              "Saved draft: /blog/" ++ post.slug] }

/-- `run` (write-posts.js lines 155-188).  The final summary console line
is not modelled. -/
def runWriter (env : WriterEnv) (db : List Idea) : WriterState :=
  let sel := getPendingIdeas env db
  let log0 := ["Starting blog post generation..."] ++ sel.2 ++
              ["Found " ++ toString sel.1.length ++ " pending ideas"]
  if sel.1.isEmpty then
    { store := db
      posts := []
      written := 0
      errors := 0
      calls := 0
      log := log0 ++ ["No pending ideas to process"] }
  else
    sel.1.foldl (writerStep env)
      { store := db, posts := [], written := 0, errors := 0, calls := 0, log := log0 }

end WritePosts

/-! ## Reference definitions following the specification's wording -/

/-- Token machine for "whitespace-delimited tokens": counts the maximal
non-whitespace runs.  `inWord` records whether the previous character was
part of a token. -/
def tokenCountAux : List Char → Bool → Nat
  | [], _ => 0
  | c :: cs, inWord =>
    if isJsWhitespace c then tokenCountAux cs false
    else (if inWord then 0 else 1) + tokenCountAux cs true

/-- The count of whitespace-delimited tokens of a text (the word count the
specification describes for the reading-time rule). -/
def tokenCount (s : String) : Nat := tokenCountAux s.data false

/-- Heading-marker removal as a single left-to-right pass: `pending` counts
the `#` characters read but not yet emitted.  An independently structured
reference implementation of the heading-marker rule, compared with
`replaceHeadings` below. -/
def stripHeadingsAux : List Char → Nat → List Char
  | [], pending => List.replicate pending '#'
  | c :: cs, pending =>
    if c = '#' then stripHeadingsAux cs (pending + 1)
    else if isJsWhitespace c then
      if pending = 0 then c :: stripHeadingsAux cs 0
      else List.replicate (pending - 6) '#' ++ stripHeadingsAux cs 0
    else List.replicate pending '#' ++ c :: stripHeadingsAux cs 0

/-- Heading-marker removal, single-pass formulation. -/
def stripHeadings (l : List Char) : List Char := stripHeadingsAux l 0

/-- The excerpt pipeline as the specification words it: remove the heading
markers (runs of one to six `#` followed by a whitespace character), remove
the bold markers, replace newlines with spaces, trim, take the first 160
characters, append the literal ellipsis marker. -/
def excerptSpec (markdown : String) : String :=
  String.mk
    ((jsTrimList (newlinesToSpaces (removeBold (stripHeadings markdown.data)))).take 160
      ++ "...".data)

/-- Number of maximal whitespace runs; `inRun` records whether the previous
character was whitespace. -/
def wsRunsAux : List Char → Bool → Nat
  | [], _ => 0
  | c :: cs, inRun =>
    if isJsWhitespace c then (if inRun then 0 else 1) + wsRunsAux cs true
    else wsRunsAux cs false

/-! ## Concrete sample data for scenario runs -/

/-- A pending idea row with the given id and priority score. -/
def sampleIdea (n : Nat) (score : Int) : WritePosts.Idea :=
  { id := n
    suggested_title := "Title " ++ toString n
    topic := "Topic"
    target_keywords := ["k"]
    target_audience := "aud"
    search_intent := "info"
    suggested_outline := "outline"
    word_count_estimate := some 1500
    seo_priority_score := score
    status := "pending" }

/-- Writer collaborators that all succeed. -/
def okWriterEnv : WritePosts.WriterEnv :=
  { selectError := none
    genPost := fun _ => .ok "Generated body text"
    genMeta := fun _ _ => .ok " A meta description. "
    insertPost := fun _ => none
    updateStatus := fun _ => none }

/-- Writer collaborators where the blog-post completion call throws for the
idea with id 2. -/
def failSecondEnv : WritePosts.WriterEnv :=
  { okWriterEnv with
    genPost := fun i =>
      if i.id = 2 then .error "completion failed" else .ok "Generated body text" }

/-- Writer collaborators where only the idea status update fails. -/
def updateFailEnv : WritePosts.WriterEnv :=
  { okWriterEnv with updateStatus := fun _ => some "update failed" }

/-- Five pending ideas with distinct priority scores. -/
def fiveIdeas : List WritePosts.Idea :=
  [sampleIdea 1 10, sampleIdea 2 50, sampleIdea 3 30, sampleIdea 4 20, sampleIdea 5 40]

/-- Three pending ideas, selected in the order 1, 2, 3. -/
def threeIdeas : List WritePosts.Idea :=
  [sampleIdea 1 30, sampleIdea 2 20, sampleIdea 3 10]

/-- A genuine unread alert message. -/
def sampleMsg : Automation.MailMsg :=
  { uid := 7
    sender := Automation.alertsSender
    seen := false
    subject := "Google Alert for: dental implants"
    text := "New clinic http://example.com/story read more"
    html := "<h3>New Dental Clinic</h3><p>A new clinic opened.</p>"
    date := some "2025-01-01T00:00:00Z" }

/-- An unread message from the alerts sender whose subject is not an alert. -/
def otherMsg : Automation.MailMsg :=
  { uid := 8
    sender := Automation.alertsSender
    seen := false
    subject := "Hello"
    text := ""
    html := ""
    date := none }

/-- A fixed classification answer from the idea-generation collaborator. -/
def sampleIdeaGen : Automation.IdeaGen :=
  { suggested_title := "Best Dental Implants Abroad"
    target_keywords := ["dental"]
    target_audience := "patients"
    search_intent := "info"
    suggested_outline := "o"
    word_count_estimate := some 1200
    seo_priority_score := 80
    topic := "dental"
    urgency := "high" }

/-- Ingestor collaborators that all succeed. -/
def okIngestEnv : Automation.IngestEnv :=
  { genIdea := fun _ => .ok sampleIdeaGen
    insertIdea := fun _ => none }

/-- A two-message mailbox. -/
def sampleMailbox : List Automation.MailMsg := [sampleMsg, otherMsg]

/-- Two alerts differing only in the extracted source title. -/
def alertA : Automation.Alert :=
  { query := "q", url := "u", title := "Alpha", snippet := "s", date := none }

/-- See `alertA`. -/
def alertB : Automation.Alert :=
  { query := "q", url := "u", title := "Beta", snippet := "s", date := none }

/-- Join token lists with single spaces. -/
def joinSpaces : List (List Char) → List Char
  | [] => []
  | [w] => w
  | w :: rest => w ++ ' ' :: joinSpaces rest

/-- A body of `n` single-letter words joined by single spaces. -/
def spacedWords (n : Nat) : String :=
  String.mk (joinSpaces (List.replicate n ['w']))

/-- Writer collaborators where the blog-post completion call always throws. -/
def genFailEnv : WritePosts.WriterEnv :=
  { okWriterEnv with genPost := fun _ => .error "boom" }

/-- Writer collaborators where the pending select fails. -/
def selectFailEnv : WritePosts.WriterEnv :=
  { okWriterEnv with selectError := some "boom" }

/-- An empty writer run state. -/
def emptyWriterState : WritePosts.WriterState :=
  { store := [], posts := [], written := 0, errors := 0, calls := 0, log := [] }

/-- The row the sample mailbox run inserts. -/
def sampleRow : Automation.ContentIdeaRow :=
  Automation.contentIdeaRow (Automation.parseAlert sampleMsg) sampleIdeaGen

/-! # Theorems -/

/-! ## Reading-time helpers -/

theorem splitWs_lengths (l : List Char) :
    (∀ acc, (splitWsAux l acc).length = 1 + wsRunsAux l false) ∧
    (splitWsAfter l).length = 1 + wsRunsAux l true := by
  induction l with
  | nil =>
    exact ⟨fun acc => by simp [splitWsAux, wsRunsAux], by simp [splitWsAfter, wsRunsAux]⟩
  | cons c cs ih =>
    refine ⟨fun acc => ?_, ?_⟩
    · by_cases hc : isJsWhitespace c
      · simp [splitWsAux, hc, wsRunsAux, ih.2]
        omega
      · simp [splitWsAux, hc, wsRunsAux, ih.1 (c :: acc)]
    · by_cases hc : isJsWhitespace c
      · simp [splitWsAfter, hc, wsRunsAux, ih.2]
      · simp [splitWsAfter, hc, wsRunsAux, ih.1 [c]]

theorem splitWs_length (l : List Char) :
    (splitWs l).length = 1 + wsRunsAux l false :=
  (splitWs_lengths l).1 []

theorem wsRunsAux_append_ws_true (w l : List Char)
    (hw : ∀ c ∈ w, isJsWhitespace c = true) :
    wsRunsAux (w ++ l) true = wsRunsAux l true := by
  induction w with
  | nil => simp
  | cons c cs ih =>
    have hc := hw c (by simp)
    simp only [List.cons_append, wsRunsAux, hc, if_true]
    simpa using ih fun d hd => hw d (by simp [hd])

theorem wsRunsAux_true_eq_false (l : List Char)
    (hl : l = [] ∨ ∃ c cs, l = c :: cs ∧ isJsWhitespace c = false) :
    wsRunsAux l true = wsRunsAux l false := by
  rcases hl with rfl | ⟨c, cs, rfl, hc⟩
  · rfl
  · simp [wsRunsAux, hc]

theorem wsRunsAux_allws_false (w : List Char) (hne : w ≠ [])
    (hw : ∀ c ∈ w, isJsWhitespace c = true) : wsRunsAux w false = 1 := by
  cases w with
  | nil => exact absurd rfl hne
  | cons c cs =>
    have hc := hw c (by simp)
    have h2 : wsRunsAux (cs ++ []) true = wsRunsAux [] true :=
      wsRunsAux_append_ws_true cs [] fun d hd => hw d (by simp [hd])
    simp only [List.append_nil] at h2
    simp [wsRunsAux, hc, h2]

theorem wsRuns_leading (w l : List Char) (hne : w ≠ [])
    (hw : ∀ c ∈ w, isJsWhitespace c = true)
    (hl : l = [] ∨ ∃ c cs, l = c :: cs ∧ isJsWhitespace c = false) :
    wsRunsAux (w ++ l) false = wsRunsAux l false + 1 := by
  cases w with
  | nil => exact absurd rfl hne
  | cons c cs =>
    have hc := hw c (by simp)
    have h2 : wsRunsAux (cs ++ l) true = wsRunsAux l true :=
      wsRunsAux_append_ws_true cs l fun d hd => hw d (by simp [hd])
    simp [wsRunsAux, hc, h2, wsRunsAux_true_eq_false l hl]
    omega

theorem wsRuns_trailing (l : List Char) (c : Char) (w : List Char) (b : Bool)
    (hc : isJsWhitespace c = false) (hne : w ≠ [])
    (hw : ∀ d ∈ w, isJsWhitespace d = true) :
    wsRunsAux (l ++ c :: w) b = wsRunsAux (l ++ [c]) b + 1 := by
  induction l generalizing b with
  | nil =>
    simp [wsRunsAux, hc, wsRunsAux_allws_false w hne hw]
  | cons d ds ih =>
    by_cases hd : isJsWhitespace d <;> simp [wsRunsAux, hd, ih] <;> omega

theorem splitWsAux_append_nonws (w : List Char) :
    ∀ (acc l : List Char), (∀ c ∈ w, isJsWhitespace c = false) →
      splitWsAux (w ++ l) acc = splitWsAux l (w.reverse ++ acc) := by
  induction w with
  | nil => intro acc l _; simp
  | cons c cs ih =>
    intro acc l hw
    have hc := hw c (by simp)
    have h1 : splitWsAux ((c :: cs) ++ l) acc = splitWsAux (cs ++ l) (c :: acc) := by
      simp [splitWsAux, hc]
    rw [h1, ih (c :: acc) l fun d hd => hw d (by simp [hd])]
    simp

theorem splitWsAfter_eq_aux (l : List Char)
    (hl : l = [] ∨ ∃ c cs, l = c :: cs ∧ isJsWhitespace c = false) :
    splitWsAfter l = splitWsAux l [] := by
  rcases hl with rfl | ⟨c, cs, rfl, hc⟩
  · simp [splitWsAfter, splitWsAux]
  · simp [splitWsAfter, splitWsAux, hc]

theorem splitWs_joinSpaces :
    ∀ tokens : List (List Char), tokens ≠ [] →
      (∀ w ∈ tokens, w ≠ [] ∧ ∀ c ∈ w, isJsWhitespace c = false) →
      splitWs (joinSpaces tokens) = tokens := by
  intro tokens
  induction tokens with
  | nil => intro h; exact absurd rfl h
  | cons t rest ih =>
    intro _ hall
    have ht := hall t (by simp)
    cases rest with
    | nil =>
      show splitWs (joinSpaces [t]) = [t]
      unfold splitWs
      rw [show joinSpaces [t] = t from rfl,
          show t = t ++ [] by simp, splitWsAux_append_nonws t [] [] ht.2]
      simp [splitWsAux]
    | cons u us =>
      have hu := hall u (by simp)
      have hjoin : joinSpaces (t :: u :: us) = t ++ ' ' :: joinSpaces (u :: us) := rfl
      have hhead : ∃ c cs, joinSpaces (u :: us) = c :: cs ∧ isJsWhitespace c = false := by
        obtain ⟨c, cs, hcs⟩ := List.exists_cons_of_ne_nil hu.1
        have hc := hu.2 c (by simp [hcs])
        cases us with
        | nil => exact ⟨c, cs, by simp [joinSpaces, hcs], hc⟩
        | cons v vs => exact ⟨c, cs ++ ' ' :: joinSpaces (v :: vs), by simp [joinSpaces, hcs], hc⟩
      unfold splitWs
      rw [hjoin, splitWsAux_append_nonws t [] (' ' :: joinSpaces (u :: us)) ht.2]
      have hsp : isJsWhitespace ' ' = true := by decide
      simp only [splitWsAux, hsp, if_true, List.append_nil, List.reverse_reverse]
      rw [splitWsAfter_eq_aux (joinSpaces (u :: us)) (Or.inr hhead)]
      have := ih (by simp) fun w hw => hall w (by simp [hw])
      unfold splitWs at this
      rw [this]

/-! ## C5: the slugify example -/

/-- C5 counterexample: `generateSlug` keeps the underscore (a `\w` word
character), so the value claimed by the specification is not the output. -/
theorem slug_underscore_cex :
    WritePosts.generateSlug "Hello, World! Foo_Bar" ≠ "hello-world-foobar" := by
  decide

/-- C5 (amended): `slugify("Hello, World! Foo_Bar", 80)` returns
`"hello-world-foo_bar"`: the comma and the exclamation mark are stripped and
the underscore is retained as a word character. -/
theorem slug_hello_world_foo_bar :
    WritePosts.generateSlug "Hello, World! Foo_Bar" = "hello-world-foo_bar" := by
  decide

/-! ## C10 and C8: reading time -/

/-- C10: `calculateReadingTime` is at least 1 for every input string:
splitting the empty string yields one (empty) piece, so the empty string has
reading time 1 rather than 0, and each run of leading or trailing whitespace
contributes one extra counted piece to the word count. -/
theorem reading_time_at_least_one :
    (∀ s : String, 1 ≤ WritePosts.calculateReadingTime s) ∧
    splitWs "".data = [[]] ∧
    WritePosts.calculateReadingTime "" = 1 ∧
    (∀ w l : List Char, w ≠ [] → (∀ c ∈ w, isJsWhitespace c = true) →
      (l = [] ∨ ∃ c cs, l = c :: cs ∧ isJsWhitespace c = false) →
      (splitWs (w ++ l)).length = (splitWs l).length + 1) ∧
    (∀ (l : List Char) (c : Char) (w : List Char),
      isJsWhitespace c = false → w ≠ [] → (∀ d ∈ w, isJsWhitespace d = true) →
      (splitWs (l ++ c :: w)).length = (splitWs (l ++ [c])).length + 1) := by
  refine ⟨?_, by decide, by decide, ?_, ?_⟩
  · intro s
    unfold WritePosts.calculateReadingTime
    have h := splitWs_length s.data
    have h2 : 1 * 200 ≤ (splitWs s.data).length + 199 := by omega
    exact (Nat.le_div_iff_mul_le (by norm_num)).2 h2
  · intro w l hne hw hl
    rw [splitWs_length (w ++ l), splitWs_length l, wsRuns_leading w l hne hw hl]
    omega
  · intro l c w hc hne hw
    rw [splitWs_length (l ++ c :: w), splitWs_length (l ++ [c]),
        wsRuns_trailing l c w false hc hne hw]
    omega

/-- Witness for `reading_time_at_least_one` at concrete inputs. -/
theorem reading_time_at_least_one_witness :
    1 ≤ WritePosts.calculateReadingTime "x" ∧
    (splitWs ([' '] ++ ['a'])).length = (splitWs ['a']).length + 1 ∧
    (splitWs ([] ++ 'a' :: [' '])).length = (splitWs ([] ++ ['a'])).length + 1 :=
  ⟨reading_time_at_least_one.1 "x",
   reading_time_at_least_one.2.2.2.1 [' '] ['a'] (by decide) (by decide)
     (Or.inr ⟨'a', [], rfl, by decide⟩),
   reading_time_at_least_one.2.2.2.2 [] 'a' [' '] (by decide) (by decide) (by decide)⟩

/-- C8 counterexample: on the empty string the code's reading time is 1, but
the ceiling of the whitespace-delimited token count (0) over 200 is 0, so
the claimed identity fails. -/
theorem reading_time_token_count_cex :
    ¬ (WritePosts.calculateReadingTime "" = (tokenCount "" + 199) / 200) := by
  decide

/-- C8 (amended): for nonempty token sequences joined by single spaces (no
leading or trailing whitespace), the reading time is the ceiling of the
token count over 200; a 400-word body yields 2, a 201-word body 2, a
200-word body 1.  (For texts with boundary whitespace or the empty string,
the code counts the split pieces, which exceed the tokens — see C10.) -/
theorem reading_time_token_count :
    (∀ tokens : List (List Char), tokens ≠ [] →
      (∀ w ∈ tokens, w ≠ [] ∧ ∀ c ∈ w, isJsWhitespace c = false) →
      WritePosts.calculateReadingTime (String.mk (joinSpaces tokens)) =
        (tokens.length + 199) / 200) ∧
    WritePosts.calculateReadingTime (spacedWords 400) = 2 ∧
    WritePosts.calculateReadingTime (spacedWords 201) = 2 ∧
    WritePosts.calculateReadingTime (spacedWords 200) = 1 := by
  have key : ∀ tokens : List (List Char), tokens ≠ [] →
      (∀ w ∈ tokens, w ≠ [] ∧ ∀ c ∈ w, isJsWhitespace c = false) →
      WritePosts.calculateReadingTime (String.mk (joinSpaces tokens)) =
        (tokens.length + 199) / 200 := by
    intro tokens hne hall
    unfold WritePosts.calculateReadingTime
    rw [show (String.mk (joinSpaces tokens)).data = joinSpaces tokens from rfl,
        splitWs_joinSpaces tokens hne hall]
  have hrep : ∀ n : Nat, n ≠ 0 →
      WritePosts.calculateReadingTime (spacedWords n) = (n + 199) / 200 := by
    intro n hn
    have hrne : List.replicate n ['w'] ≠ ([] : List (List Char)) := by
      cases n with
      | zero => exact absurd rfl hn
      | succ m => simp [List.replicate_succ]
    have := key (List.replicate n ['w']) hrne
      (fun w hw => by rw [List.eq_of_mem_replicate hw]; exact ⟨by simp, by decide⟩)
    simpa [spacedWords] using this
  refine ⟨key, ?_, ?_, ?_⟩
  · rw [hrep 400 (by norm_num)]
  · rw [hrep 201 (by norm_num)]
  · rw [hrep 200 (by norm_num)]

/-- Witness for `reading_time_token_count` at a concrete token list. -/
theorem reading_time_token_count_witness :
    WritePosts.calculateReadingTime (String.mk (joinSpaces [['h'], ['i']])) =
      ([['h'], ['i']].length + 199) / 200 :=
  reading_time_token_count.1 [['h'], ['i']] (by decide) (by decide)

/-! ## C7: the excerpt pipeline -/

theorem takeWhile_hash_replicate (p : Nat) :
    ((List.replicate p '#').takeWhile fun c => c = '#') = List.replicate p '#' := by
  induction p with
  | zero => rfl
  | succ n ih => simp [List.replicate_succ, List.takeWhile_cons, ih]

theorem takeWhile_hash_append (p : Nat) (c : Char) (l : List Char) (hc : c ≠ '#') :
    ((List.replicate p '#' ++ c :: l).takeWhile fun d => d = '#') = List.replicate p '#' := by
  induction p with
  | zero => simp [List.takeWhile_cons, hc]
  | succ n ih => simp [List.replicate_succ, List.takeWhile_cons, ih]

theorem headingRun_replicate_append (p : Nat) (c : Char) (l : List Char) (hc : c ≠ '#') :
    headingRun (List.replicate p '#' ++ c :: l) = p := by
  unfold headingRun
  rw [takeWhile_hash_append p c l hc]
  simp

theorem headingRun_replicate (p : Nat) :
    headingRun (List.replicate p '#') = p := by
  unfold headingRun
  rw [takeWhile_hash_replicate]
  simp

theorem drop_replicate_append (p : Nat) (c : Char) (l : List Char) :
    (List.replicate p '#' ++ c :: l).drop p = c :: l := by
  have h := List.drop_left (List.replicate p '#') (c :: l)
  simpa using h

theorem headingAt_not_hash (c : Char) (l : List Char) (hc : c ≠ '#') :
    headingAt (c :: l) = none := by
  unfold headingAt
  have h0 : headingRun (c :: l) = 0 := by
    unfold headingRun
    simp [List.takeWhile_cons, hc]
  rw [h0]
  simp

theorem headingAt_replicate (p : Nat) : headingAt (List.replicate p '#') = none := by
  unfold headingAt
  rw [headingRun_replicate]
  split
  · have hdrop : (List.replicate p '#').drop p = [] := by
      simp [List.drop_replicate]
    rw [hdrop]
  · rfl

theorem headingAt_block_nonws (p : Nat) (c : Char) (l : List Char)
    (hc : c ≠ '#') (hw : isJsWhitespace c = false) :
    headingAt (List.replicate p '#' ++ c :: l) = none := by
  unfold headingAt
  rw [headingRun_replicate_append p c l hc]
  split
  · rw [drop_replicate_append p c l]
    simp [hw]
  · rfl

theorem headingAt_block_ws_small (p : Nat) (c : Char) (l : List Char)
    (hc : c ≠ '#') (hw : isJsWhitespace c = true) (hp : 1 ≤ p) (hp6 : p ≤ 6) :
    headingAt (List.replicate p '#' ++ c :: l) = some l := by
  unfold headingAt
  rw [headingRun_replicate_append p c l hc]
  rw [if_pos ⟨hp, hp6⟩, drop_replicate_append p c l]
  simp [hw]

theorem headingAt_block_large (p : Nat) (c : Char) (l : List Char)
    (hc : c ≠ '#') (hp : 7 ≤ p) :
    headingAt (List.replicate p '#' ++ c :: l) = none := by
  unfold headingAt
  rw [headingRun_replicate_append p c l hc]
  rw [if_neg (by omega)]

theorem replaceHeadings_cons_none {c : Char} {cs : List Char}
    (h : headingAt (c :: cs) = none) :
    replaceHeadings (c :: cs) = c :: replaceHeadings cs := by
  rw [replaceHeadings]
  split
  · rename_i rest heq
    rw [h] at heq
    cases heq
  · rfl

theorem replaceHeadings_cons_some {c : Char} {cs rest : List Char}
    (h : headingAt (c :: cs) = some rest) :
    replaceHeadings (c :: cs) = replaceHeadings rest := by
  rw [replaceHeadings]
  split
  · rename_i rest' heq
    rw [h] at heq
    cases heq
    rfl
  · rename_i heq
    rw [h] at heq
    cases heq

theorem replaceHeadings_nil : replaceHeadings [] = [] := by
  rw [replaceHeadings]

theorem replaceHeadings_replicate (p : Nat) :
    replaceHeadings (List.replicate p '#') = List.replicate p '#' := by
  induction p with
  | zero => simpa using replaceHeadings_nil
  | succ n ih =>
    rw [List.replicate_succ]
    rw [replaceHeadings_cons_none (by
      rw [← List.replicate_succ]
      exact headingAt_replicate (n + 1))]
    rw [ih]

theorem replaceHeadings_block_nonws (p : Nat) (c : Char) (l : List Char)
    (hc : c ≠ '#') (hw : isJsWhitespace c = false) :
    replaceHeadings (List.replicate p '#' ++ c :: l) =
      List.replicate p '#' ++ c :: replaceHeadings l := by
  induction p with
  | zero =>
    simpa using replaceHeadings_cons_none (by
      simpa using headingAt_block_nonws 0 c l hc hw)
  | succ n ih =>
    rw [List.replicate_succ, List.cons_append]
    rw [replaceHeadings_cons_none (by
      rw [← List.cons_append, ← List.replicate_succ]
      exact headingAt_block_nonws (n + 1) c l hc hw)]
    rw [ih]
    rfl

theorem ne_hash_of_ws {c : Char} (hw : isJsWhitespace c = true) : c ≠ '#' := by
  intro h
  subst h
  exact absurd hw (by decide)

theorem replaceHeadings_block_ws (p : Nat) (c : Char) (l : List Char)
    (hw : isJsWhitespace c = true) (hp : 1 ≤ p) :
    replaceHeadings (List.replicate p '#' ++ c :: l) =
      List.replicate (p - 6) '#' ++ replaceHeadings l := by
  have hc : c ≠ '#' := ne_hash_of_ws hw
  induction p using Nat.strong_induction_on with
  | _ p ih =>
    by_cases hp6 : p ≤ 6
    · obtain ⟨m, rfl⟩ : ∃ m, p = m + 1 := ⟨p - 1, by omega⟩
      rw [List.replicate_succ, List.cons_append]
      rw [replaceHeadings_cons_some (by
        rw [← List.cons_append, ← List.replicate_succ]
        exact headingAt_block_ws_small (m + 1) c l hc hw hp hp6)]
      rw [show m + 1 - 6 = 0 by omega]
      simp
    · obtain ⟨m, rfl⟩ : ∃ m, p = m + 1 := ⟨p - 1, by omega⟩
      rw [List.replicate_succ, List.cons_append]
      rw [replaceHeadings_cons_none (by
        rw [← List.cons_append, ← List.replicate_succ]
        exact headingAt_block_large (m + 1) c l hc (by omega))]
      rw [ih m (by omega) (by omega)]
      rw [show m + 1 - 6 = (m - 6) + 1 by omega, List.replicate_succ]
      simp

theorem stripHeadingsAux_eq (l : List Char) :
    ∀ p, stripHeadingsAux l p = replaceHeadings (List.replicate p '#' ++ l) := by
  induction l with
  | nil =>
    intro p
    simp [stripHeadingsAux, replaceHeadings_replicate]
  | cons c cs ih =>
    intro p
    by_cases hc : c = '#'
    · subst hc
      rw [show List.replicate p '#' ++ '#' :: cs = List.replicate (p + 1) '#' ++ cs by
            rw [List.replicate_succ']
            simp]
      rw [show stripHeadingsAux ('#' :: cs) p = stripHeadingsAux cs (p + 1) by
            simp [stripHeadingsAux]]
      exact ih (p + 1)
    · by_cases hw : isJsWhitespace c
      · by_cases hp : p = 0
        · subst hp
          rw [show stripHeadingsAux (c :: cs) 0 = c :: stripHeadingsAux cs 0 by
                simp [stripHeadingsAux, hc, hw]]
          rw [ih 0]
          simp only [List.replicate, List.nil_append]
          exact (replaceHeadings_cons_none (headingAt_not_hash c cs hc)).symm
        · rw [show stripHeadingsAux (c :: cs) p =
                List.replicate (p - 6) '#' ++ stripHeadingsAux cs 0 by
                simp [stripHeadingsAux, hc, hw, hp]]
          rw [replaceHeadings_block_ws p c cs hw (by omega)]
          rw [ih 0]
          simp
      · rw [show stripHeadingsAux (c :: cs) p =
              List.replicate p '#' ++ c :: stripHeadingsAux cs 0 by
              simp [stripHeadingsAux, hc, hw]]
        rw [replaceHeadings_block_nonws p c cs hc (by simpa using hw)]
        rw [ih 0]
        simp

theorem stripHeadings_eq_replaceHeadings (l : List Char) :
    stripHeadings l = replaceHeadings l := by
  have h := stripHeadingsAux_eq l 0
  simpa [stripHeadings] using h

/-- C7: for every markdown string, the excerpt is computed by removing the
heading markers (one to six `#` followed by a whitespace character, removed
wherever they occur), removing the bold markers `**`, replacing newlines
with spaces, trimming surrounding whitespace, taking the first 160
characters, and appending the literal ellipsis marker `...` — stated as the
equality of the code's pipeline with the independently structured
single-pass formulation `excerptSpec`. -/
theorem excerpt_pipeline (m : String) :
    WritePosts.generateExcerpt m = excerptSpec m := by
  unfold WritePosts.generateExcerpt excerptSpec
  rw [stripHeadings_eq_replaceHeadings]

/-! ## C6: subject query extraction -/

theorem dropWhile_head_false {α : Type} (p : α → Bool) :
    ∀ (l : List α) (d : α) (ds : List α), l.dropWhile p = d :: ds → p d = false := by
  intro l
  induction l with
  | nil => intro d ds h; cases h
  | cons c cs ih =>
    intro d ds h
    by_cases hc : p c
    · rw [List.dropWhile_cons, if_pos hc] at h
      exact ih d ds h
    · rw [List.dropWhile_cons, if_neg hc] at h
      cases h
      simpa using hc

theorem takeWhile_of_all {α : Type} (p : α → Bool) :
    ∀ l : List α, (∀ a ∈ l, p a = true) → l.takeWhile p = l := by
  intro l
  induction l with
  | nil => intro _; rfl
  | cons c cs ih =>
    intro h
    rw [List.takeWhile_cons, if_pos (h c (by simp))]
    rw [ih fun a ha => h a (by simp [ha])]

theorem stripPrefixCI_pfx :
    ∀ (pat l r : List Char), stripPrefixCI pat l = some r →
      pat <+: l.map Char.toLower := by
  intro pat
  induction pat with
  | nil => intro l r _; exact List.nil_prefix
  | cons p ps ih =>
    intro l r h
    cases l with
    | nil => simp [stripPrefixCI] at h
    | cons c cs =>
      by_cases hc : c.toLower = p
      · have h' : stripPrefixCI ps cs = some r := by
          simpa [stripPrefixCI, hc] using h
        obtain ⟨t, ht⟩ := ih cs r h'
        exact ⟨t, by simp [List.map_cons, hc, ht]⟩
      · simp [stripPrefixCI, hc] at h

theorem matchAlertAt_eq {l rest : List Char}
    (h : stripPrefixCI alertSubjectPat l = some rest) :
    matchAlertAt l = tryCapture rest := by
  unfold matchAlertAt
  rw [h]

theorem findAlertCapture_cons_some {c : Char} {cs cap : List Char}
    (h : matchAlertAt (c :: cs) = some cap) :
    findAlertCapture (c :: cs) = some cap := by
  rw [findAlertCapture, h]

theorem findAlertCapture_none :
    ∀ l : List Char, ¬ alertSubjectPat <:+: l.map Char.toLower →
      findAlertCapture l = none := by
  intro l
  induction l with
  | nil => intro _; rfl
  | cons c cs ih =>
    intro hni
    have h1 : matchAlertAt (c :: cs) = none := by
      unfold matchAlertAt
      cases hs : stripPrefixCI alertSubjectPat (c :: cs) with
      | none => rfl
      | some rest => exact absurd (stripPrefixCI_pfx _ _ _ hs).isInfix hni
    have h2 : ¬ alertSubjectPat <:+: cs.map Char.toLower := by
      intro hin
      obtain ⟨s, t, hst⟩ := hin
      exact hni ⟨c.toLower :: s, t, by simp [List.map_cons, hst]⟩
    rw [findAlertCapture, h1, ih h2]

/-- C6: for every subject of the valid alert pattern
`"Google Alert for: X"` (with `X` free of line terminators), extraction
yields `X` trimmed of surrounding whitespace; for every subject in which
the alert literal does not occur, extraction yields the empty string; and
an empty extracted query makes the ingestor loop skip the message (no row,
no error). -/
theorem alert_query_extraction :
    (∀ X : String, (∀ c ∈ X.data, isLineTerminator c = false) →
      extractQuery ("Google Alert for: " ++ X) = jsTrim X) ∧
    (∀ s : String, ¬ alertSubjectPat <:+: s.data.map Char.toLower →
      extractQuery s = "") ∧
    (∀ (env : Automation.IngestEnv) (st : Automation.IngestState)
        (m : Automation.MailMsg), extractQuery m.subject = "" →
      (Automation.ingestStep env st m).skipped = st.skipped + 1 ∧
      (Automation.ingestStep env st m).rows = st.rows ∧
      (Automation.ingestStep env st m).errors = st.errors) := by
  refine ⟨?_, ?_, ?_⟩
  · intro X h
    obtain ⟨xs⟩ := X
    have h' : ∀ c ∈ xs, isLineTerminator c = false := h
    have hdata : ("Google Alert for: " ++ String.mk xs).data
        = 'G' :: 'o' :: 'o' :: 'g' :: 'l' :: 'e' :: ' ' :: 'A' :: 'l' :: 'e' ::
          'r' :: 't' :: ' ' :: 'f' :: 'o' :: 'r' :: ':' :: ' ' :: xs := rfl
    have hstrip : stripPrefixCI alertSubjectPat
        ('G' :: 'o' :: 'o' :: 'g' :: 'l' :: 'e' :: ' ' :: 'A' :: 'l' :: 'e' ::
          'r' :: 't' :: ' ' :: 'f' :: 'o' :: 'r' :: ':' :: ' ' :: xs)
        = some (' ' :: xs) := rfl
    have hdw : (' ' :: xs).dropWhile isJsWhitespace = xs.dropWhile isJsWhitespace := rfl
    cases hd : xs.dropWhile isJsWhitespace with
    | nil =>
      have hallws : ∀ c ∈ xs, isJsWhitespace c = true := by
        intro c hc
        exact List.dropWhile_eq_nil_iff.1 hd c hc
      have hfs : ((' ' :: xs).reverse.find? fun c => !(isLineTerminator c)).isSome := by
        rw [List.find?_isSome]
        exact ⟨' ', by simp, by decide⟩
      obtain ⟨c, hc⟩ := Option.isSome_iff_exists.1 hfs
      have hcmem : c ∈ ' ' :: xs := List.mem_reverse.1 (List.mem_of_find?_eq_some hc)
      have hcw : isJsWhitespace c = true := by
        rcases List.mem_cons.1 hcmem with rfl | hmem
        · decide
        · exact hallws c hmem
      have htry : tryCapture (' ' :: xs) = some [c] := by
        unfold tryCapture
        rw [hdw, hd, hc]
      have hfind : findAlertCapture ("Google Alert for: " ++ String.mk xs).data
          = some [c] := by
        rw [hdata]
        exact findAlertCapture_cons_some (by rw [matchAlertAt_eq hstrip]; exact htry)
      rw [show extractQuery ("Google Alert for: " ++ String.mk xs)
            = jsTrim (String.mk [c]) by unfold extractQuery; rw [hfind]]
      unfold jsTrim
      congr 1
      simp [jsTrimList, List.dropWhile_cons, hcw, hd]
    | cons d ds =>
      have hdf : isJsWhitespace d = false := dropWhile_head_false _ xs d ds hd
      have hsub : (d :: ds).Sublist xs := by
        rw [← hd]
        exact List.dropWhile_sublist _
      have hnt : ∀ a ∈ d :: ds, (fun x => !(isLineTerminator x)) a = true := by
        intro a ha
        simp [h' a (hsub.subset ha)]
      have htry : tryCapture (' ' :: xs)
          = some ((d :: ds).takeWhile fun x => !(isLineTerminator x)) := by
        unfold tryCapture
        rw [hdw, hd]
      have hfind : findAlertCapture ("Google Alert for: " ++ String.mk xs).data
          = some ((d :: ds).takeWhile fun x => !(isLineTerminator x)) := by
        rw [hdata]
        exact findAlertCapture_cons_some (by rw [matchAlertAt_eq hstrip]; exact htry)
      rw [show extractQuery ("Google Alert for: " ++ String.mk xs)
            = jsTrim (String.mk ((d :: ds).takeWhile fun x => !(isLineTerminator x)))
            by unfold extractQuery; rw [hfind]]
      rw [takeWhile_of_all _ _ hnt]
      unfold jsTrim
      congr 1
      simp [jsTrimList, hd, List.dropWhile_cons, hdf]
  · intro s hni
    unfold extractQuery
    rw [findAlertCapture_none s.data hni]
  · intro env st m hq
    have hq' : (Automation.parseAlert m).query = "" := hq
    unfold Automation.ingestStep
    rw [if_pos hq']
    exact ⟨rfl, rfl, rfl⟩

/-- Witness for `alert_query_extraction` at concrete inputs. -/
theorem alert_query_extraction_witness :
    extractQuery ("Google Alert for: " ++ "dental implants") = jsTrim "dental implants" ∧
    extractQuery "Hello" = "" ∧
    (Automation.ingestStep okIngestEnv
        { mbox := [], rows := [], processed := 0, skipped := 0, errors := 0, log := [] }
        otherMsg).skipped =
      ({ mbox := [], rows := [], processed := 0, skipped := 0, errors := 0, log := [] }
        : Automation.IngestState).skipped + 1 :=
  ⟨alert_query_extraction.1 "dental implants" (by decide),
   alert_query_extraction.2.1 "Hello" (by decide),
   (alert_query_extraction.2.2 okIngestEnv
     { mbox := [], rows := [], processed := 0, skipped := 0, errors := 0, log := [] }
     otherMsg (by decide)).1⟩

/-! ## C4: the inserted ContentIdea row -/

theorem ingestStep_rows (env : Automation.IngestEnv) (st : Automation.IngestState)
    (m : Automation.MailMsg) :
    (Automation.ingestStep env st m).rows = st.rows ∨
    ∃ (a : Automation.Alert) (i : Automation.IdeaGen),
      (Automation.ingestStep env st m).rows
        = st.rows ++ [Automation.contentIdeaRow a i] := by
  unfold Automation.ingestStep
  dsimp only
  split
  · exact Or.inl rfl
  · split
    · exact Or.inl rfl
    · split
      · exact Or.inl rfl
      · exact Or.inr ⟨Automation.parseAlert m, _, rfl⟩

theorem foldl_ingest_rows (env : Automation.IngestEnv) :
    ∀ (msgs : List Automation.MailMsg) (st : Automation.IngestState),
      ∀ row ∈ (msgs.foldl (Automation.ingestStep env) st).rows,
        row ∈ st.rows ∨
        ∃ (a : Automation.Alert) (i : Automation.IdeaGen),
          row = Automation.contentIdeaRow a i := by
  intro msgs
  induction msgs with
  | nil => intro st row hr; exact Or.inl hr
  | cons m ms ih =>
    intro st row hr
    rcases ih (Automation.ingestStep env st m) row hr with hmem | hex
    · rcases ingestStep_rows env st m with he | ⟨a, i, he⟩
      · rw [he] at hmem
        exact Or.inl hmem
      · rw [he] at hmem
        rcases List.mem_append.1 hmem with h1 | h2
        · exact Or.inl h1
        · exact Or.inr ⟨a, i, by simpa using h2⟩
    · exact Or.inr hex

/-- C4 counterexample: the inserted row's title is not a function of the
model-suggested title — two alerts with different source titles and the
same suggested title give different row titles. -/
theorem content_idea_title_cex :
    ¬ ∀ (a a' : Automation.Alert) (i : Automation.IdeaGen),
        (Automation.contentIdeaRow a i).title = (Automation.contentIdeaRow a' i).title := by
  intro hall
  exact absurd (hall alertA alertB sampleIdeaGen) (by decide)

/-- C4 (amended): every ContentIdea row inserted by an ingestor run has
`source = "google_alerts"` and `status = "pending"`, its slug is the
suggested title put through the slug rule (lower-case, strip characters
that are not word/whitespace/hyphen, whitespace runs to `-`, truncate to
100), and its title is `"Content Idea: "` followed by the alert's source
title — not the model-suggested title. -/
theorem content_idea_row_fields :
    ∀ (env : Automation.IngestEnv) (mbox : List Automation.MailMsg),
      ∀ row ∈ (Automation.runAutomation env mbox).rows,
        row.source = "google_alerts" ∧ row.status = "pending" ∧
        ∃ (a : Automation.Alert) (i : Automation.IdeaGen),
          row = Automation.contentIdeaRow a i ∧
          row.title = "Content Idea: " ++ a.title ∧
          row.slug = Automation.generateSlug i.suggested_title := by
  intro env mbox row hrow
  unfold Automation.runAutomation at hrow
  rcases foldl_ingest_rows env (Automation.searchUnseen mbox) _ row hrow with hmem | ⟨a, i, hrw⟩
  · simp at hmem
  · subst hrw
    exact ⟨rfl, rfl, a, i, rfl, rfl, rfl⟩

/-- Witness for `content_idea_row_fields` at the sample mailbox run. -/
theorem content_idea_row_fields_witness :
    sampleRow.source = "google_alerts" ∧ sampleRow.status = "pending" :=
  have h := content_idea_row_fields okIngestEnv sampleMailbox sampleRow (by decide)
  ⟨h.1, h.2.1⟩

/-! ## C1: per-idea failure policy of the writer loop -/

/-- C1 counterexample: with all generation steps succeeding and only the
idea status update failing (step 4), the error counter stays 0 — not 1 as
the claim demands — while the idea stays `pending` and the draft post was
already inserted and counted as written. -/
theorem writer_step4_error_counter_cex :
    (WritePosts.runWriter updateFailEnv [sampleIdea 1 10]).errors = 0 ∧
    (WritePosts.runWriter updateFailEnv [sampleIdea 1 10]).written = 1 ∧
    (WritePosts.runWriter updateFailEnv [sampleIdea 1 10]).posts.length = 1 ∧
    (WritePosts.runWriter updateFailEnv [sampleIdea 1 10]).store.map
      (fun i => i.status) = ["pending"] := by
  refine ⟨?_, ?_, ?_, ?_⟩ <;> decide

/-- C1 (amended): a failure of step 1, 2, or 3 (blog-post generation,
meta-description generation, BlogPost insert) for a selected idea
increments the error counter by exactly 1, inserts no post, touches no idea
status, and the loop continues; a failure of step 4 (idea status update) is
only logged — the error counter is unchanged, the written counter is
incremented, the post row stays inserted, and the idea stays `pending`.
When the text-completion call throws for one of three selected ideas, that
idea remains `pending`, the other two transition to `processed`, and the
error counter equals 1. -/
theorem writer_per_idea_failure_policy :
    (∀ (env : WritePosts.WriterEnv) (st : WritePosts.WriterState)
        (idea : WritePosts.Idea) (e : String),
      env.genPost idea = .error e →
      (WritePosts.writerStep env st idea).errors = st.errors + 1 ∧
      (WritePosts.writerStep env st idea).store = st.store ∧
      (WritePosts.writerStep env st idea).posts = st.posts ∧
      (WritePosts.writerStep env st idea).written = st.written) ∧
    (∀ (env : WritePosts.WriterEnv) (st : WritePosts.WriterState)
        (idea : WritePosts.Idea) (content e : String),
      env.genPost idea = .ok content →
      env.genMeta idea.suggested_title (substrTake 500 content) = .error e →
      (WritePosts.writerStep env st idea).errors = st.errors + 1 ∧
      (WritePosts.writerStep env st idea).store = st.store ∧
      (WritePosts.writerStep env st idea).posts = st.posts ∧
      (WritePosts.writerStep env st idea).written = st.written) ∧
    (∀ (env : WritePosts.WriterEnv) (st : WritePosts.WriterState)
        (idea : WritePosts.Idea) (content rawMeta e : String),
      env.genPost idea = .ok content →
      env.genMeta idea.suggested_title (substrTake 500 content) = .ok rawMeta →
      env.insertPost (WritePosts.blogPostRow idea content (jsTrim rawMeta)) = some e →
      (WritePosts.writerStep env st idea).errors = st.errors + 1 ∧
      (WritePosts.writerStep env st idea).store = st.store ∧
      (WritePosts.writerStep env st idea).posts = st.posts ∧
      (WritePosts.writerStep env st idea).written = st.written) ∧
    (∀ (env : WritePosts.WriterEnv) (st : WritePosts.WriterState)
        (idea : WritePosts.Idea) (content rawMeta e : String),
      env.genPost idea = .ok content →
      env.genMeta idea.suggested_title (substrTake 500 content) = .ok rawMeta →
      env.insertPost (WritePosts.blogPostRow idea content (jsTrim rawMeta)) = none →
      env.updateStatus idea.id = some e →
      (WritePosts.writerStep env st idea).errors = st.errors ∧
      (WritePosts.writerStep env st idea).store = st.store ∧
      (WritePosts.writerStep env st idea).posts
        = st.posts ++ [WritePosts.blogPostRow idea content (jsTrim rawMeta)] ∧
      (WritePosts.writerStep env st idea).written = st.written + 1) ∧
    ((WritePosts.runWriter failSecondEnv threeIdeas).errors = 1 ∧
     (WritePosts.runWriter failSecondEnv threeIdeas).written = 2 ∧
     (WritePosts.runWriter failSecondEnv threeIdeas).store.map (fun i => (i.id, i.status))
       = [(1, "processed"), (2, "pending"), (3, "processed")]) := by
  refine ⟨?_, ?_, ?_, ?_, by refine ⟨?_, ?_, ?_⟩ <;> decide⟩
  · intro env st idea e h1
    unfold WritePosts.writerStep
    rw [h1]
    exact ⟨rfl, rfl, rfl, rfl⟩
  · intro env st idea content e h1 h2
    unfold WritePosts.writerStep
    rw [h1]
    dsimp only
    rw [h2]
    exact ⟨rfl, rfl, rfl, rfl⟩
  · intro env st idea content rawMeta e h1 h2 h3
    unfold WritePosts.writerStep
    rw [h1]
    dsimp only
    rw [h2]
    dsimp only
    rw [h3]
    exact ⟨rfl, rfl, rfl, rfl⟩
  · intro env st idea content rawMeta e h1 h2 h3 h4
    unfold WritePosts.writerStep
    rw [h1]
    dsimp only
    rw [h2]
    dsimp only
    rw [h3]
    dsimp only
    rw [h4]
    exact ⟨rfl, rfl, rfl, rfl⟩

/-- Witness for `writer_per_idea_failure_policy` at a concrete failing
completion call. -/
theorem writer_per_idea_failure_policy_witness :
    (WritePosts.writerStep genFailEnv emptyWriterState (sampleIdea 1 10)).errors
      = emptyWriterState.errors + 1 ∧
    (WritePosts.writerStep genFailEnv emptyWriterState (sampleIdea 1 10)).store
      = emptyWriterState.store ∧
    (WritePosts.writerStep genFailEnv emptyWriterState (sampleIdea 1 10)).posts
      = emptyWriterState.posts ∧
    (WritePosts.writerStep genFailEnv emptyWriterState (sampleIdea 1 10)).written
      = emptyWriterState.written :=
  writer_per_idea_failure_policy.1 genFailEnv emptyWriterState (sampleIdea 1 10) "boom" rfl

/-! ## C3: the selection policy -/

theorem mem_insertDesc (x a : WritePosts.Idea) :
    ∀ l : List WritePosts.Idea,
      a ∈ WritePosts.insertDesc x l ↔ a = x ∨ a ∈ l := by
  intro l
  induction l with
  | nil => simp [WritePosts.insertDesc]
  | cons y ys ih =>
    by_cases hy : y.seo_priority_score < x.seo_priority_score
    · simp [WritePosts.insertDesc, hy]
    · simp [WritePosts.insertDesc, hy, ih]
      tauto

theorem length_insertDesc (x : WritePosts.Idea) :
    ∀ l : List WritePosts.Idea,
      (WritePosts.insertDesc x l).length = l.length + 1 := by
  intro l
  induction l with
  | nil => rfl
  | cons y ys ih =>
    by_cases hy : y.seo_priority_score < x.seo_priority_score
    · simp [WritePosts.insertDesc, hy]
    · simp [WritePosts.insertDesc, hy, ih]

theorem mem_sortDesc (a : WritePosts.Idea) :
    ∀ l : List WritePosts.Idea, a ∈ WritePosts.sortDesc l ↔ a ∈ l := by
  intro l
  induction l with
  | nil => simp [WritePosts.sortDesc]
  | cons x xs ih => simp [WritePosts.sortDesc, mem_insertDesc, ih]

theorem length_sortDesc :
    ∀ l : List WritePosts.Idea, (WritePosts.sortDesc l).length = l.length := by
  intro l
  induction l with
  | nil => rfl
  | cons x xs ih => simp [WritePosts.sortDesc, length_insertDesc, ih]

theorem pairwise_insertDesc (x : WritePosts.Idea) :
    ∀ l : List WritePosts.Idea,
      l.Pairwise (fun a b => b.seo_priority_score ≤ a.seo_priority_score) →
      (WritePosts.insertDesc x l).Pairwise
        (fun a b => b.seo_priority_score ≤ a.seo_priority_score) := by
  intro l
  induction l with
  | nil => intro _; simp [WritePosts.insertDesc]
  | cons y ys ih =>
    intro hp
    rcases List.pairwise_cons.1 hp with ⟨hy, hys⟩
    by_cases hxy : y.seo_priority_score < x.seo_priority_score
    · rw [WritePosts.insertDesc, if_pos hxy]
      refine List.pairwise_cons.2 ⟨?_, hp⟩
      intro b hb
      rcases List.mem_cons.1 hb with rfl | hbmem
      · omega
      · have := hy b hbmem
        omega
    · rw [WritePosts.insertDesc, if_neg hxy]
      refine List.pairwise_cons.2 ⟨?_, ih hys⟩
      intro b hb
      rcases (mem_insertDesc x b ys).1 hb with rfl | hbmem
      · omega
      · exact hy b hbmem

theorem pairwise_sortDesc :
    ∀ l : List WritePosts.Idea,
      (WritePosts.sortDesc l).Pairwise
        (fun a b => b.seo_priority_score ≤ a.seo_priority_score) := by
  intro l
  induction l with
  | nil => simp [WritePosts.sortDesc]
  | cons x xs ih => exact pairwise_insertDesc x (WritePosts.sortDesc xs) ih

/-- C3: a writer run (with the select succeeding) selects only pending
ideas from the store, at most 3, ordered by `seo_priority_score`
descending, exactly `min 3 (number pending)` of them; with zero pending
ideas the run terminates immediately with no completion call and no store
write; with the five sample pending ideas, exactly the top three by score
transition to `processed` and two remain `pending`. -/
theorem writer_selection_policy :
    (∀ (env : WritePosts.WriterEnv) (db : List WritePosts.Idea),
      env.selectError = none →
      (WritePosts.getPendingIdeas env db).1.length ≤ 3 ∧
      (∀ i ∈ (WritePosts.getPendingIdeas env db).1, i.status = "pending" ∧ i ∈ db) ∧
      (WritePosts.getPendingIdeas env db).1.Pairwise
        (fun a b => b.seo_priority_score ≤ a.seo_priority_score) ∧
      (WritePosts.getPendingIdeas env db).1.length
        = min 3 (db.filter fun i => i.status == "pending").length) ∧
    (∀ (env : WritePosts.WriterEnv) (db : List WritePosts.Idea),
      env.selectError = none →
      (db.filter fun i => i.status == "pending") = [] →
      (WritePosts.runWriter env db).calls = 0 ∧
      (WritePosts.runWriter env db).posts = [] ∧
      (WritePosts.runWriter env db).store = db ∧
      (WritePosts.runWriter env db).written = 0 ∧
      (WritePosts.runWriter env db).errors = 0) ∧
    ((WritePosts.runWriter okWriterEnv fiveIdeas).store.map (fun i => (i.id, i.status))
       = [(1, "pending"), (2, "processed"), (3, "processed"),
          (4, "pending"), (5, "processed")] ∧
     (WritePosts.runWriter okWriterEnv fiveIdeas).written = 3 ∧
     (WritePosts.runWriter okWriterEnv fiveIdeas).errors = 0) := by
  refine ⟨?_, ?_, by refine ⟨?_, ?_, ?_⟩ <;> decide⟩
  · intro env db he
    have hsel : (WritePosts.getPendingIdeas env db).1
        = (WritePosts.sortDesc (db.filter fun i => i.status == "pending")).take
            WritePosts.POSTS_PER_DAY := by
      unfold WritePosts.getPendingIdeas
      rw [he]
    refine ⟨?_, ?_, ?_, ?_⟩
    · rw [hsel]
      simpa [WritePosts.POSTS_PER_DAY] using
        (List.length_take_le WritePosts.POSTS_PER_DAY _)
    · intro i hi
      rw [hsel] at hi
      have hmem : i ∈ WritePosts.sortDesc (db.filter fun j => j.status == "pending") :=
        (List.take_subset _ _) hi
      have hfil : i ∈ db.filter fun j => j.status == "pending" :=
        (mem_sortDesc i _).1 hmem
      have := List.mem_filter.1 hfil
      exact ⟨by simpa using this.2, this.1⟩
    · rw [hsel]
      exact (pairwise_sortDesc _).sublist (List.take_sublist _ _)
    · rw [hsel, List.length_take, length_sortDesc]
      rfl
  · intro env db he hfil
    have hsel : WritePosts.getPendingIdeas env db = ([], []) := by
      unfold WritePosts.getPendingIdeas
      rw [he, hfil]
      rfl
    unfold WritePosts.runWriter
    rw [hsel]
    exact ⟨rfl, rfl, rfl, rfl, rfl⟩

/-- Witness for `writer_selection_policy` at concrete inputs. -/
theorem writer_selection_policy_witness :
    (WritePosts.getPendingIdeas okWriterEnv fiveIdeas).1.length ≤ 3 ∧
    (WritePosts.runWriter okWriterEnv []).calls = 0 :=
  ⟨(writer_selection_policy.1 okWriterEnv fiveIdeas rfl).1,
   (writer_selection_policy.2.1 okWriterEnv [] rfl rfl).1⟩

/-! ## C9: select failure treated as zero pending ideas -/

/-- C9: when the store select fails, the writer logs the store error
message, reports finding 0 pending ideas, and returns normally with no
completion call, no store write and a zero error counter. -/
theorem writer_select_error_as_zero :
    ∀ (env : WritePosts.WriterEnv) (db : List WritePosts.Idea) (e : String),
      env.selectError = some e →
      WritePosts.runWriter env db =
        { store := db
          posts := []
          written := 0
          errors := 0
          calls := 0
          log := ["Starting blog post generation...", "Error fetching ideas: " ++ e,
                  "Found 0 pending ideas", "No pending ideas to process"] } := by
  intro env db e h
  have hsel : WritePosts.getPendingIdeas env db = ([], ["Error fetching ideas: " ++ e]) := by
    unfold WritePosts.getPendingIdeas
    rw [h]
  unfold WritePosts.runWriter
  rw [hsel]
  dsimp only
  simp only [List.isEmpty_nil, List.length_nil, if_true]
  rfl

/-- Witness for `writer_select_error_as_zero` at a concrete failing env. -/
theorem writer_select_error_as_zero_witness :
    WritePosts.runWriter selectFailEnv [] =
      { store := []
        posts := []
        written := 0
        errors := 0
        calls := 0
        log := ["Starting blog post generation...", "Error fetching ideas: " ++ "boom",
                "Found 0 pending ideas", "No pending ideas to process"] } :=
  writer_select_error_as_zero selectFailEnv [] "boom" rfl

/-! ## C2: every handled message is marked read -/

theorem ingestStep_mbox (env : Automation.IngestEnv) (st : Automation.IngestState)
    (m : Automation.MailMsg) :
    (Automation.ingestStep env st m).mbox = Automation.markAsRead st.mbox m.uid := by
  unfold Automation.ingestStep
  dsimp only
  split
  · rfl
  · split
    · rfl
    · split
      · rfl
      · rfl

theorem ingestStep_rows_le (env : Automation.IngestEnv) (st : Automation.IngestState)
    (m : Automation.MailMsg) :
    (Automation.ingestStep env st m).rows.length ≤ st.rows.length + 1 := by
  rcases ingestStep_rows env st m with h | ⟨a, i, h⟩
  · rw [h]
    omega
  · rw [h]
    simp

theorem foldl_ingest_mbox (env : Automation.IngestEnv) :
    ∀ (msgs : List Automation.MailMsg) (st : Automation.IngestState),
      (msgs.foldl (Automation.ingestStep env) st).mbox
        = msgs.foldl (fun mb m => Automation.markAsRead mb m.uid) st.mbox := by
  intro msgs
  induction msgs with
  | nil => intro st; rfl
  | cons m ms ih =>
    intro st
    rw [List.foldl_cons, List.foldl_cons, ih, ingestStep_mbox]

theorem foldl_ingest_rows_le (env : Automation.IngestEnv) :
    ∀ (msgs : List Automation.MailMsg) (st : Automation.IngestState),
      (msgs.foldl (Automation.ingestStep env) st).rows.length
        ≤ st.rows.length + msgs.length := by
  intro msgs
  induction msgs with
  | nil => intro st; simp
  | cons m ms ih =>
    intro st
    rw [List.foldl_cons]
    have h1 := ih (Automation.ingestStep env st m)
    have h2 := ingestStep_rows_le env st m
    simp only [List.length_cons]
    omega

theorem foldl_markAsRead_eq_map :
    ∀ (msgs : List Automation.MailMsg) (mbox : List Automation.MailMsg),
      msgs.foldl (fun mb m => Automation.markAsRead mb m.uid) mbox
        = mbox.map fun x =>
            if x.uid ∈ msgs.map (fun m => m.uid) then { x with seen := true } else x := by
  intro msgs
  induction msgs with
  | nil =>
    intro mbox
    simp
  | cons m ms ih =>
    intro mbox
    rw [List.foldl_cons, ih]
    unfold Automation.markAsRead
    rw [List.map_map]
    apply List.map_congr_left
    intro x _
    by_cases hx : x.uid = m.uid
    · simp [Function.comp, hx]
    · simp [Function.comp, hx]

theorem searchUnseen_map_marked (mbox : List Automation.MailMsg) (uids : List Nat)
    (hsup : ∀ x ∈ mbox, x.sender = Automation.alertsSender → x.seen = false →
      x.uid ∈ uids) :
    Automation.searchUnseen
      (mbox.map fun x => if x.uid ∈ uids then { x with seen := true } else x) = [] := by
  unfold Automation.searchUnseen
  rw [List.filter_eq_nil_iff]
  intro y hy
  rcases List.mem_map.1 hy with ⟨x, hxmem, rfl⟩
  by_cases hx : x.uid ∈ uids
  · rw [if_pos hx]
    simp
  · rw [if_neg hx]
    simp only [Bool.and_eq_true, beq_iff_eq, Bool.not_eq_true']
    rintro ⟨hsender, hseen⟩
    exact hx (hsup x hxmem hsender hseen)

theorem searchUnseen_after_run (env : Automation.IngestEnv)
    (mbox : List Automation.MailMsg) :
    Automation.searchUnseen (Automation.runAutomation env mbox).mbox = [] := by
  unfold Automation.runAutomation
  rw [foldl_ingest_mbox, foldl_markAsRead_eq_map]
  apply searchUnseen_map_marked
  intro x hxmem hsender hseen
  refine List.mem_map.2 ⟨x, ?_, rfl⟩
  unfold Automation.searchUnseen
  rw [List.mem_filter]
  exact ⟨hxmem, by simp [hsender, hseen]⟩

/-- C2: every branch of the message loop marks the current message read
before moving on (skip, error, and success alike); a run inserts at most
one ContentIdea row per handled message; after a run no unseen alert
message remains; and a second run over the resulting mailbox processes
nothing and inserts nothing. -/
theorem ingestor_marks_read_and_no_reprocess :
    (∀ (env : Automation.IngestEnv) (st : Automation.IngestState)
        (m : Automation.MailMsg),
      (Automation.ingestStep env st m).mbox = Automation.markAsRead st.mbox m.uid) ∧
    (∀ (env : Automation.IngestEnv) (mbox : List Automation.MailMsg),
      (Automation.runAutomation env mbox).rows.length
        ≤ (Automation.searchUnseen mbox).length) ∧
    (∀ (env : Automation.IngestEnv) (mbox : List Automation.MailMsg),
      Automation.searchUnseen (Automation.runAutomation env mbox).mbox = []) ∧
    (∀ (env env2 : Automation.IngestEnv) (mbox : List Automation.MailMsg),
      (Automation.runAutomation env2 (Automation.runAutomation env mbox).mbox).rows = [] ∧
      (Automation.runAutomation env2 (Automation.runAutomation env mbox).mbox).processed = 0 ∧
      (Automation.runAutomation env2 (Automation.runAutomation env mbox).mbox).skipped = 0 ∧
      (Automation.runAutomation env2 (Automation.runAutomation env mbox).mbox).errors = 0) := by
  refine ⟨ingestStep_mbox, ?_, searchUnseen_after_run, ?_⟩
  · intro env mbox
    have h := foldl_ingest_rows_le env (Automation.searchUnseen mbox)
      { mbox := mbox
        rows := []
        processed := 0
        skipped := 0
        errors := 0
        log := ["Starting content automation..."] }
    simpa [Automation.runAutomation] using h
  · intro env env2 mbox
    have key : ∀ mb : List Automation.MailMsg, Automation.searchUnseen mb = [] →
        (Automation.runAutomation env2 mb).rows = [] ∧
        (Automation.runAutomation env2 mb).processed = 0 ∧
        (Automation.runAutomation env2 mb).skipped = 0 ∧
        (Automation.runAutomation env2 mb).errors = 0 := by
      intro mb hmb
      unfold Automation.runAutomation
      rw [hmb]
      exact ⟨rfl, rfl, rfl, rfl⟩
    exact key _ (searchUnseen_after_run env mbox)
